import Mathlib
set_option maxRecDepth 8000

/-!
Verification development for the hikari RSS collector
(src/光通信rss_収集プログラム.py).

The Python program is shallowly embedded: each Python function becomes a
Lean function of the same name where Lean allows it; regex searches are
hand-compiled into equivalent scanners over `List Char` (the patterns used
never need backtracking into a character class because each class is
disjoint from the literal that follows it); exceptions become
`Except Unit` / `Option`; the SQLite `reports` table becomes a list of
rows; external collaborators (the yfinance market-data provider) become
explicit function parameters.
-/

namespace Hikari

/-! ### Characters and small scanners -/

/-- Value of an ASCII digit character. -/
def digitVal (c : Char) : Nat := c.toNat - 48

/-- Natural number denoted by a digit list (most significant first). -/
def natOfDigits (cs : List Char) : Nat :=
  cs.foldl (fun acc c => acc * 10 + digitVal c) 0

/-- Characters matched by the regex whitespace class in the program's
`re.sub(r'\s+', ' ', ...)` call (common ASCII whitespace plus the
ideographic space; a model of the full Unicode class). -/
def isPySpace (c : Char) : Bool :=
  c = ' ' || c = '\t' || c = '\n' || c = '\r' || c = '\x0b' || c = '\x0c' || c = '　'

/-- `listStartsWith p t` holds when `p` is an initial segment of `t`. -/
def listStartsWith : List Char → List Char → Bool
  | [], _ => true
  | _ :: _, [] => false
  | p :: ps, t :: ts => p = t && listStartsWith ps ts

/-- Substring occurrence test, modelling Python's `key in text`. -/
def containsSubstring (pat : List Char) : List Char → Bool
  | [] => pat.isEmpty
  | c :: cs => listStartsWith pat (c :: cs) || containsSubstring pat cs

/-- Python's `key in text` on strings. -/
def containsStr (pat s : String) : Bool :=
  containsSubstring pat.toList s.toList

/-- Model of Python `float` on a token drawn from the class `[\d.]`:
digits with at most one decimal point and at least one digit convert;
anything else raises, modelled as `none`. -/
def pyFloat (cs : List Char) : Option ℚ :=
  let intPart := cs.takeWhile Char.isDigit
  let rest := cs.dropWhile Char.isDigit
  match rest with
  | [] => if intPart.isEmpty then none else some (natOfDigits intPart : ℚ)
  | '.' :: frac =>
    if frac.all Char.isDigit && !(intPart.isEmpty && frac.isEmpty) then
      some ((natOfDigits intPart : ℚ) + (natOfDigits frac : ℚ) / (10 ^ frac.length : ℚ))
    else none
  | _ => none

/-! ### The date model

`PyDateTime` models the Python `datetime` values produced by
`datetime.strptime`; `mkDateTime` models the range validation done by the
`datetime` constructor (`MINYEAR = 1`, valid month/day/time fields,
timezone offsets strictly inside one day). -/

structure PyDateTime where
  year : Nat
  month : Nat
  day : Nat
  hour : Nat
  minute : Nat
  second : Nat
  /-- timezone offset in minutes, when the parsed text carried one -/
  tzOffset : Option Int
deriving DecidableEq

def isLeapYear (y : Nat) : Bool :=
  y % 4 = 0 && (y % 100 ≠ 0 || y % 400 = 0)

def daysInMonth (y m : Nat) : Nat :=
  if m = 2 then (if isLeapYear y then 29 else 28)
  else if m = 4 || m = 6 || m = 9 || m = 11 then 30
  else 31

def mkDateTime (y mo d h mi s : Nat) (tz : Option Int) : Option PyDateTime :=
  if 1 ≤ y && y ≤ 9999 && 1 ≤ mo && mo ≤ 12 && 1 ≤ d && d ≤ daysInMonth y mo
      && h ≤ 23 && mi ≤ 59 && s ≤ 59
      && (match tz with
          | none => true
          | some o => -(24 * 60) < o && o < 24 * 60) then
    some ⟨y, mo, d, h, mi, s, tz⟩
  else none

/-! ### strptime for the two formats used by `parse_date` -/

/-- Consume exactly `n` digits, accumulating their value. -/
def readExactDigitsAux : Nat → Nat → List Char → Option (Nat × List Char)
  | 0, acc, cs => some (acc, cs)
  | n + 1, acc, c :: cs =>
    if c.isDigit then readExactDigitsAux n (acc * 10 + digitVal c) cs else none
  | _ + 1, _, [] => none

def readExactDigits (n : Nat) (cs : List Char) : Option (Nat × List Char) :=
  readExactDigitsAux n 0 cs

/-- Models strptime's one-or-two-digit numeric fields (regexes such as
`3[01]|[12]\d|0[1-9]|[1-9]`): two digits are consumed when the two-digit
value lies in `[lo2, hi2]`, otherwise one digit in `[lo1, hi1]`. -/
def readNumField (lo2 hi2 lo1 hi1 : Nat) : List Char → Option (Nat × List Char)
  | a :: b :: cs =>
    if a.isDigit && b.isDigit && lo2 ≤ digitVal a * 10 + digitVal b
        && digitVal a * 10 + digitVal b ≤ hi2 then
      some (digitVal a * 10 + digitVal b, cs)
    else if a.isDigit && lo1 ≤ digitVal a && digitVal a ≤ hi1 then
      some (digitVal a, b :: cs)
    else none
  | [a] =>
    if a.isDigit && lo1 ≤ digitVal a && digitVal a ≤ hi1 then some (digitVal a, []) else none
  | [] => none

def expectChar (c : Char) : List Char → Option (List Char)
  | x :: cs => if x = c then some cs else none
  | [] => none

/-- A literal space in a strptime format matches one or more whitespace
characters. -/
def skipWs1 : List Char → Option (List Char)
  | c :: cs => if isPySpace c then some (cs.dropWhile isPySpace) else none
  | [] => none

/-- Case-insensitively consume the name `pat` from the front of `cs`. -/
def dropCI : List Char → List Char → Option (List Char)
  | [], cs => some cs
  | _ :: _, [] => none
  | p :: ps, c :: cs => if p.toLower = c.toLower then dropCI ps cs else none

def matchNames : List (List Char × Nat) → List Char → Option (Nat × List Char)
  | [], _ => none
  | (nm, v) :: rest, cs =>
    match dropCI nm cs with
    | some r => some (v, r)
    | none => matchNames rest cs

def weekdayNames : List (List Char × Nat) :=
  [(['m','o','n'], 0), (['t','u','e'], 1), (['w','e','d'], 2), (['t','h','u'], 3),
   (['f','r','i'], 4), (['s','a','t'], 5), (['s','u','n'], 6)]

def monthNames : List (List Char × Nat) :=
  [(['j','a','n'], 1), (['f','e','b'], 2), (['m','a','r'], 3), (['a','p','r'], 4),
   (['m','a','y'], 5), (['j','u','n'], 6), (['j','u','l'], 7), (['a','u','g'], 8),
   (['s','e','p'], 9), (['o','c','t'], 10), (['n','o','v'], 11), (['d','e','c'], 12)]

/-- Models the `%z` directive on the shapes occurring in feed dates:
`Z`, or a sign followed by `HHMM` with an optional colon.  Offset range
validity is checked later by `mkDateTime`. -/
def parseTZ : List Char → Option (Int × List Char)
  | [] => none
  | c :: cs =>
    if c = 'Z' then some (0, cs)
    else if c = '+' || c = '-' then
      match readExactDigits 2 cs with
      | some (hh, rest) =>
        let rest2 := match rest with
          | ':' :: r => r
          | r => r
        match rest2 with
        | m1 :: m2 :: r =>
          if m1.isDigit && digitVal m1 ≤ 5 && m2.isDigit then
            some ((if c = '-' then -1 else 1) * ((hh : Int) * 60 + (digitVal m1 * 10 + digitVal m2 : Nat)), r)
          else none
        | _ => none
      | none => none
    else none

/-- `datetime.strptime(s, '%a, %d %b %Y %H:%M:%S %z')`. -/
def strptimeRFC822 (s : List Char) : Option PyDateTime := do
  let (_, r1) ← matchNames weekdayNames s
  let r2 ← expectChar ',' r1
  let r3 ← skipWs1 r2
  let (d, r4) ← readNumField 1 31 1 9 r3
  let r5 ← skipWs1 r4
  let (mo, r6) ← matchNames monthNames r5
  let r7 ← skipWs1 r6
  let (y, r8) ← readExactDigits 4 r7
  let r9 ← skipWs1 r8
  let (h, r10) ← readNumField 0 23 0 9 r9
  let r11 ← expectChar ':' r10
  let (mi, r12) ← readNumField 0 59 0 9 r11
  let r13 ← expectChar ':' r12
  let (se, r14) ← readNumField 0 61 0 9 r13
  let r15 ← skipWs1 r14
  let (tz, r16) ← parseTZ r15
  if r16.isEmpty then mkDateTime y mo d h mi se (some tz) else none

/-- `datetime.strptime(s, '%Y年%m月%d日')`. -/
def strptimeJP (s : List Char) : Option PyDateTime := do
  let (y, r1) ← readExactDigits 4 s
  let r2 ← expectChar '年' r1
  let (mo, r3) ← readNumField 1 12 1 9 r2
  let r4 ← expectChar '月' r3
  let (d, r5) ← readNumField 1 31 1 9 r4
  let r6 ← expectChar '日' r5
  if r6.isEmpty then mkDateTime y mo d 0 0 0 none else none

/-- The `for fmt in formats:` loop body of `parse_date`: first successful
format wins, failure of every format yields `none`. -/
def tryFormats : List (List Char → Option PyDateTime) → List Char → Option PyDateTime
  | [], _ => none
  | f :: fs, s =>
    match f s with
    | some d => some d
    | none => tryFormats fs s

def dateFormats : List (List Char → Option PyDateTime) :=
  [strptimeRFC822, strptimeJP]

/-- `parse_date` of the program: try the RFC-822-style feed format, then
the localized `YYYY年MM月DD日` format; `None` when neither matches. -/
def parse_date (date_str : String) : Option PyDateTime :=
  tryFormats dateFormats date_str.toList

/-- `get_date_components` of the program. -/
def get_date_components : Option PyDateTime → Option Nat × Option Nat × Option Nat
  | some d => (some d.year, some d.month, some d.day)
  | none => (none, none, none)

/-! ### Reason categorizer -/

/-- The ordered phrase-to-code table of `categorize_reason` (Python dicts
iterate in insertion order). -/
def categoriesList : List (String × Nat) :=
  [("株券等保有割合が1%以上増加", 1),
   ("株券等保有割合が1%以上減少", 2),
   ("新規", 3),
   ("変更", 4),
   ("訂正", 5),
   ("基準日", 6)]

/-- The `for key, value in categories.items():` loop: first phrase that
occurs as a substring wins. -/
def firstCat : List (String × Nat) → String → Nat
  | [], _ => 0
  | (k, v) :: rest, t =>
    if containsStr k t then v else firstCat rest t

/-- `categorize_reason` of the program: empty text is falsy and yields 0. -/
def categorize_reason (reason_text : String) : Nat :=
  if reason_text = "" then 0 else firstCat categoriesList reason_text

/-! ### Ticker / percentage extractors -/

/-- One attempt of the regex `\[(\d{4})\]` at the current position. -/
def tryTicker : List Char → Option (List Char)
  | '[' :: a :: b :: c :: d :: ']' :: _ =>
    if a.isDigit && b.isDigit && c.isDigit && d.isDigit then some [a, b, c, d] else none
  | _ => none

def searchTicker : List Char → Option (List Char)
  | [] => none
  | c :: cs =>
    match tryTicker (c :: cs) with
    | some g => some g
    | none => searchTicker cs

/-- `extract_ticker_number` of the program: leftmost `[dddd]` group. -/
def extract_ticker_number (text : String) : Option String :=
  (searchTicker text.toList).map fun g => ⟨g⟩

/-- One attempt of the regex `(\d+\.\d+)%` at the current position,
returning the matched value. -/
def tryPct (t : List Char) : Option ℚ :=
  let a := t.takeWhile Char.isDigit
  let r1 := t.dropWhile Char.isDigit
  match r1 with
  | '.' :: r2 =>
    let b := r2.takeWhile Char.isDigit
    let r3 := r2.dropWhile Char.isDigit
    if !a.isEmpty && !b.isEmpty && listStartsWith ['%'] r3 then
      some ((natOfDigits a : ℚ) + (natOfDigits b : ℚ) / (10 ^ b.length : ℚ))
    else none
  | _ => none

def searchPct : List Char → Option ℚ
  | [] => none
  | c :: cs =>
    match tryPct (c :: cs) with
    | some q => some q
    | none => searchPct cs

/-- `extract_percentage` of the program. -/
def extract_percentage (text : String) : Option ℚ :=
  searchPct text.toList

/-- Character class `[\d.]` of the change patterns. -/
def isNumDot (c : Char) : Bool := c.isDigit || c = '.'

/-- One attempt of `([\d.]+)lit` at the current position: a nonempty
greedy class run followed by the literal `lit` (the class is disjoint from
`lit`'s first character `p`, so greedy matching needs no backtracking). -/
def hasRunLitHere (lit : List Char) (t : List Char) : Bool :=
  !(t.takeWhile isNumDot).isEmpty && listStartsWith lit (t.dropWhile isNumDot)

def searchRunLit (lit : List Char) : List Char → Option (List Char)
  | [] => none
  | c :: cs =>
    if hasRunLitHere lit (c :: cs) then some ((c :: cs).takeWhile isNumDot)
    else searchRunLit lit cs

/-- Leftmost match of `[Δ△]([\d.]+)pt`, returning the group. -/
def searchDeltaRun : List Char → Option (List Char)
  | [] => none
  | c :: cs =>
    if (c = 'Δ' || c = '△') && hasRunLitHere ['p', 't'] cs then
      some (cs.takeWhile isNumDot)
    else searchDeltaRun cs

/-- `extract_percentage_change` of the program.  The four regexes are
tried in source order; a matched group that is not a valid float (the
class `[\d.]+` admits multiple dots) makes `float(...)` raise, modelled as
`Except.error`. -/
def extract_percentage_change (text : String) : Except Unit (Option ℚ × Int) :=
  if text = "" then .ok (none, 0)
  else
    match searchRunLit ['p', 't', '↑'] text.toList with
    | some g =>
      match pyFloat g with
      | some q => .ok (some q, 1)
      | none => .error ()
    | none =>
    match searchRunLit ['p', 't', '↓'] text.toList with
    | some g =>
      match pyFloat g with
      | some q => .ok (some q, -1)
      | none => .error ()
    | none =>
    match searchDeltaRun text.toList with
    | some g =>
      match pyFloat g with
      | some q => .ok (some q, -1)
      | none => .error ()
    | none =>
    match searchRunLit ['p', 't'] text.toList with
    | some g =>
      match pyFloat g with
      | some q => .ok (some q, 0)
      | none => .error ()
    | none => .ok (none, 0)

/-! ### Price enricher

The yfinance collaborator is external to the repository, so it is a
parameter: for a (normalized) ticker and an obligation date it answers the
one-day history query (the list of closing prices of the returned bars)
and the `info.get("regularMarketPrice", None)` lookup, either of which may
raise. -/

structure ProviderResult where
  hist : Except Unit (List ℚ)
  marketInfo : Except Unit (Option ℚ)

abbrev ProviderFn := String → PyDateTime → ProviderResult

/-- Ticker normalization of `fetch_prices`:
`ticker if "." in ticker else ticker + ".T"`. -/
def normalizeTicker (t : String) : String :=
  if t.toList.contains '.' then t else t ++ ".T"

/-- `fetch_prices` of the program: the whole body is wrapped in
`try/except`, so a raise at either query yields `(None, None)`; an empty
history yields `None` for the close (`hist.iloc[0]['Close']` otherwise);
the market-info lookup is independent of the history result. -/
def fetch_prices (pf : ProviderFn) (ticker : String) (ts : PyDateTime) :
    Option ℚ × Option ℚ :=
  let res := pf (normalizeTicker ticker) ts
  match res.hist with
  | .error _ => (none, none)
  | .ok bars =>
    match res.marketInfo with
    | .error _ => (none, none)
    | .ok q => (bars.head?, q)

/-! ### Description cleanup: `html.unescape`, tag stripping, label pairs -/

/-- Model of Python `html.unescape` restricted to the predefined XML
entities `&amp;`, `&lt;`, `&gt;`, `&quot;` (the full named-entity table is
stdlib data external to the repository and is never relied on by a
claim). -/
def unescape : List Char → List Char
  | '&' :: 'a' :: 'm' :: 'p' :: ';' :: rest => '&' :: unescape rest
  | '&' :: 'l' :: 't' :: ';' :: rest => '<' :: unescape rest
  | '&' :: 'g' :: 't' :: ';' :: rest => '>' :: unescape rest
  | '&' :: 'q' :: 'u' :: 'o' :: 't' :: ';' :: rest => '"' :: unescape rest
  | c :: rest => c :: unescape rest
  | [] => []

/-- Rest after the first `'>'`. -/
def tagEndAux : List Char → Option (List Char)
  | [] => none
  | '>' :: cs => some cs
  | _ :: cs => tagEndAux cs

/-- Given the characters after a `'<'`, the rest after the closing `'>'`
of the regex `<[^>]+>` (at least one character between the brackets). -/
def tagEnd : List Char → Option (List Char)
  | [] => none
  | '>' :: _ => none
  | _ :: cs => tagEndAux cs

/-- `re.sub(r'<[^>]+>', '', s)`.  The fuel argument only serves
termination; `length + 1` steps always suffice because every removed tag
consumes at least one character. -/
def stripTagsFuel : Nat → List Char → List Char
  | 0, cs => cs
  | _ + 1, [] => []
  | fuel + 1, c :: cs =>
    if c = '<' then
      match tagEnd cs with
      | some rest => stripTagsFuel fuel rest
      | none => c :: stripTagsFuel fuel cs
    else c :: stripTagsFuel fuel cs

def stripTags (cs : List Char) : List Char :=
  stripTagsFuel (cs.length + 1) cs

/-- Rest after the first `'【'`. -/
def scanOpen : List Char → Option (List Char)
  | [] => none
  | '【' :: cs => some cs
  | _ :: cs => scanOpen cs

/-- Split at the first `'】'`: the label text before it and the rest
after it. -/
def splitClose : List Char → Option (List Char × List Char)
  | [] => none
  | '】' :: cs => some ([], cs)
  | c :: cs =>
    match splitClose cs with
    | some (a, b) => some (c :: a, b)
    | none => none

/-- The lazy `(.*?)(?=【|$)` value (with `re.DOTALL`): stop at the first
`'【'`, else just before a terminal newline (`$` without `re.MULTILINE`),
else at the end.  Returns the value and the rest of the text. -/
def lazyValue : List Char → List Char × List Char
  | [] => ([], [])
  | c :: cs =>
    if c = '【' then ([], c :: cs)
    else if c = '\n' && cs.isEmpty then ([], [c])
    else
      let (g, r) := lazyValue cs
      (c :: g, r)

/-- Leftmost match of `【(.*?)】(.*?)(?=【|$)`: the two groups and the rest
of the text after the match.  A `'【'` with no following `'】'` admits no
match at all (no `'】'` exists further right either). -/
def matchOnePair (t : List Char) : Option (List Char × List Char × List Char) :=
  match scanOpen t with
  | none => none
  | some r1 =>
    match splitClose r1 with
    | some (g1, r2) =>
      let (g2, r3) := lazyValue r2
      some (g1, g2, r3)
    | none => none

/-- `re.findall` over the label/value pattern.  Fuel as in `stripTags`:
every match consumes at least the opening bracket. -/
def findPairsFuel : Nat → List Char → List (List Char × List Char)
  | 0, _ => []
  | fuel + 1, t =>
    match matchOnePair t with
    | some (g1, g2, rest) => (g1, g2) :: findPairsFuel fuel rest
    | none => []

def findPairs (t : List Char) : List (List Char × List Char) :=
  findPairsFuel (t.length + 1) t

/-- `re.sub(r'\s+', ' ', value)`: whitespace runs collapse to single
spaces (the flag records whether the previous character was whitespace). -/
def squeezeWs : Bool → List Char → List Char
  | _, [] => []
  | prev, c :: cs =>
    if isPySpace c then
      if prev then squeezeWs true cs else ' ' :: squeezeWs true cs
    else c :: squeezeWs false cs

/-- `.strip()` after the collapse: only plain spaces remain at the ends. -/
def stripSpaces (cs : List Char) : List Char :=
  ((cs.dropWhile fun c => c == ' ').reverse.dropWhile fun c => c == ' ').reverse

/-- `re.sub(r'\s+', ' ', value).strip()`. -/
def collapseWs (v : List Char) : List Char :=
  stripSpaces (squeezeWs false v)

/-- Rest after the first `']'` (for `re.search(r'\]\s*(.*?)$', ...)`). -/
def afterBracket : List Char → Option (List Char)
  | [] => none
  | ']' :: cs => some cs
  | _ :: cs => afterBracket cs

/-- The company string assigned under the `銘柄` label: everything after
the first `']'`, stripped (the input has already been
whitespace-collapsed, so only spaces occur). -/
def companyFrom (cleaned : List Char) : Option String :=
  match afterBracket cleaned with
  | some rest => some ⟨stripSpaces rest⟩
  | none => none

/-! ### Feed entries, the per-entry record, and the store -/

structure Entry where
  title : String
  link : String
  published : String
  /-- `entry.description` when `hasattr(entry, 'description')` -/
  description : Option String
deriving DecidableEq

/-- The `data` dictionary built per entry.  `percentage_change` and
`change_flag` are initialized to `None` and never assigned nor written to
the table by the program. -/
structure DataRec where
  title : String
  link : String
  published : String
  published_date : Option PyDateTime
  ticker : Option String
  company : Option String
  percentage : Option ℚ
  percentage_change : Option String
  percentage_change_value : Option ℚ
  percentage_change_direction : Int
  change_flag : Option String
  report_date : Option String
  report_date_timestamp : Option PyDateTime
  reason : Option String
  reason_type : Nat
  purpose : Option String
  report_date_close : Option ℚ
  current_price : Option ℚ
  year : Option Nat
  month : Option Nat
  day : Option Nat
deriving DecidableEq

/-- The literal `data = {...}` initialization. -/
def initData (e : Entry) (published_date : Option PyDateTime)
    (y mo d : Option Nat) : DataRec :=
  { title := e.title, link := e.link, published := e.published,
    published_date := published_date,
    ticker := none, company := none, percentage := none,
    percentage_change := none, percentage_change_value := none,
    percentage_change_direction := 0, change_flag := none,
    report_date := none, report_date_timestamp := none,
    reason := none, reason_type := 0, purpose := none,
    report_date_close := none, current_price := none,
    year := y, month := mo, day := d }

/-- Python truthiness of the optional integer `data['year']`
(`None` and `0` are falsy). -/
def pyTruthyNat : Option Nat → Bool
  | none => false
  | some n => n != 0

/-- One iteration of the `for key, value in content_pairs:` loop.  The
only raising operation is `float(...)` inside
`extract_percentage_change`. -/
def applyPair (d : DataRec) (key value : List Char) : Except Unit DataRec :=
  let cleaned := collapseWs value
  if key = "銘柄".toList then
    .ok { d with ticker := extract_ticker_number ⟨cleaned⟩,
                 company := match companyFrom cleaned with
                   | some c => some c
                   | none => d.company }
  else if key = "割合".toList then
    match extract_percentage_change ⟨cleaned⟩ with
    | .error err => .error err
    | .ok (vc, dir) =>
      .ok { d with percentage := extract_percentage ⟨cleaned⟩,
                   percentage_change_value := vc,
                   percentage_change_direction := dir }
  else if key = "報告義務発生日".toList then
    let obj := parse_date ⟨cleaned⟩
    let d1 := { d with report_date := some (⟨cleaned⟩ : String),
                       report_date_timestamp := obj }
    match obj with
    | some dt =>
      if !pyTruthyNat d.year then
        .ok { d1 with year := some dt.year, month := some dt.month, day := some dt.day }
      else .ok d1
    | none => .ok d1
  else if key = "提出事由".toList then
    .ok { d with reason := some (⟨cleaned⟩ : String),
                 reason_type := categorize_reason ⟨cleaned⟩ }
  else if key = "保有目的".toList then
    .ok { d with purpose := some (⟨cleaned⟩ : String) }
  else
    .ok d

def foldPairs : DataRec → List (List Char × List Char) → Except Unit DataRec
  | d, [] => .ok d
  | d, (k, v) :: ps =>
    match applyPair d k v with
    | .error err => .error err
    | .ok d1 => foldPairs d1 ps

/-- Lines 178-180 of the program: missing description becomes `""`, then
`html.unescape`, then tag stripping. -/
def cleanDescription (d : Option String) : List Char :=
  stripTags (unescape (d.getD "").toList)

def contentPairs (e : Entry) : List (List Char × List Char) :=
  findPairs (cleanDescription e.description)

/-- The date the year/month/day fallback at line 226 of the program ends
up using: the first obligation-date pair whose cleaned value parses. -/
def firstOblDate (ps : List (List Char × List Char)) : Option PyDateTime :=
  ps.findSome? fun kv =>
    if kv.1 = "報告義務発生日".toList then parse_date ⟨collapseWs kv.2⟩ else none

/-- The record as initialized before the label loop: published date
parsed, year/month/day taken from its components. -/
def initForEntry (e : Entry) : DataRec :=
  let published_date := parse_date e.published
  let c := get_date_components published_date
  initData e published_date c.1 c.2.1 c.2.2

/-- The extraction part of the entry loop body (everything before the
price enrichment). -/
def extractData (e : Entry) : Except Unit DataRec :=
  foldPairs (initForEntry e) (contentPairs e)

/-- The entry loop body up to the upsert: extraction, then price
enrichment guarded by `if data['ticker'] and data['report_date_timestamp']`
(string truthiness on the ticker).  The boolean reports whether the price
provider was queried. -/
def processEntry (pf : ProviderFn) (e : Entry) : Except Unit (DataRec × Bool) :=
  match extractData e with
  | .error err => .error err
  | .ok d =>
    match d.ticker, d.report_date_timestamp with
    | some tk, some ts =>
      if tk != "" then
        let pr := fetch_prices pf tk ts
        .ok ({ d with report_date_close := pr.1, current_price := pr.2 }, true)
      else .ok (d, false)
    | _, _ => .ok (d, false)

/-! ### The reports table and the upsert -/

/-- A row of the `reports` table restricted to the columns the program
ever writes (the INSERT and UPDATE column lists).  `created_at` and
`updated_at` model `CURRENT_TIMESTAMP` with an abstract clock. -/
structure Row where
  title : String
  link : String
  published : String
  published_date : Option PyDateTime
  ticker : Option String
  company : Option String
  percentage : Option ℚ
  percentage_change_value : Option ℚ
  percentage_change_direction : Int
  report_date : Option String
  report_date_timestamp : Option PyDateTime
  reason : Option String
  reason_type : Nat
  purpose : Option String
  report_date_close : Option ℚ
  current_price : Option ℚ
  year : Option Nat
  month : Option Nat
  day : Option Nat
  created_at : Nat
  updated_at : Nat
deriving DecidableEq

def rowLinks (db : List Row) : List String :=
  db.map fun r => r.link

/-- The INSERT statement. -/
def insertRow (now : Nat) (d : DataRec) : Row :=
  { title := d.title, link := d.link, published := d.published,
    published_date := d.published_date, ticker := d.ticker,
    company := d.company, percentage := d.percentage,
    percentage_change_value := d.percentage_change_value,
    percentage_change_direction := d.percentage_change_direction,
    report_date := d.report_date,
    report_date_timestamp := d.report_date_timestamp,
    reason := d.reason, reason_type := d.reason_type, purpose := d.purpose,
    report_date_close := d.report_date_close, current_price := d.current_price,
    year := d.year, month := d.month, day := d.day,
    created_at := now, updated_at := now }

/-- The UPDATE statement: every mutable column is overwritten,
`updated_at` is set to the current time, `link` (the WHERE key) and
`created_at` are kept. -/
def updateRow (r : Row) (now : Nat) (d : DataRec) : Row :=
  { title := d.title, link := r.link, published := d.published,
    published_date := d.published_date, ticker := d.ticker,
    company := d.company, percentage := d.percentage,
    percentage_change_value := d.percentage_change_value,
    percentage_change_direction := d.percentage_change_direction,
    report_date := d.report_date,
    report_date_timestamp := d.report_date_timestamp,
    reason := d.reason, reason_type := d.reason_type, purpose := d.purpose,
    report_date_close := d.report_date_close, current_price := d.current_price,
    year := d.year, month := d.month, day := d.day,
    created_at := r.created_at, updated_at := now }

/-- The `SELECT id FROM reports WHERE link = ?` existence check followed
by UPDATE or INSERT.  The boolean is `true` when a row was inserted. -/
def upsertReport (db : List Row) (now : Nat) (e : Entry) (d : DataRec) :
    List Row × Bool :=
  if db.any (fun r => r.link == e.link) then
    (db.map fun r => if r.link == e.link then updateRow r now d else r, false)
  else
    (db ++ [insertRow now d], true)

/-- Outcome of `parse_and_store_rss` on one feed: the committed rows, the
two counters, and whether the entry loop ran to completion (`false` when
an exception aborted it and the transaction was rolled back). -/
structure FeedResult where
  db : List Row
  inserted_count : Nat
  updated_count : Nat
  completed : Bool
deriving DecidableEq

/-- The entry loop of `parse_and_store_rss` with its per-entry
`conn.commit()`: each successfully processed entry is upserted and
committed before the next entry is read; the first raising entry aborts
the remainder of the feed (the exception is caught at feed level, the
uncommitted work of the raising entry is rolled back, and the committed
rows remain).  The clock ticks once per entry. -/
def processFeed (pf : ProviderFn) : List Entry → List Row → Nat → FeedResult
  | [], db, _ => ⟨db, 0, 0, true⟩
  | e :: es, db, t =>
    match processEntry pf e with
    | .error _ => ⟨db, 0, 0, false⟩
    | .ok (d, _) =>
      let (db1, inserted) := upsertReport db t e d
      let r := processFeed pf es db1 (t + 1)
      ⟨r.db, (if inserted then 1 else 0) + r.inserted_count,
       (if inserted then 0 else 1) + r.updated_count, r.completed⟩

/-- The `for url in unique_feed_urls:` loop of `__main__`:
`parse_and_store_rss` never propagates an exception, so every feed is
attempted in order against the accumulated store. -/
def runFeeds (pf : ProviderFn) : List (List Entry) → List Row → Nat → List Row
  | [], db, _ => db
  | f :: fs, db, t => runFeeds pf fs (processFeed pf f db t).db (t + f.length + 1)

/-! ### Sample data used by the witness theorems -/

deriving instance DecidableEq for Except

/-- A provider answering an empty history and no market quote. -/
def quietProvider : ProviderFn := fun _ _ => ⟨.ok [], .ok none⟩

/-- A provider raising on both queries. -/
def failingProvider : ProviderFn := fun _ _ => ⟨.error (), .error ()⟩

/-- A provider with an empty one-day history but a live market quote. -/
def emptyHistProvider : ProviderFn := fun _ _ => ⟨.ok [], .ok (some 100)⟩

/-- A feed entry carrying no description attribute. -/
def plainEntry : Entry :=
  ⟨"t1", "http://feed/1", "Tue, 03 Jun 2025 01:23:45 +0900", none⟩

/-- A feed entry whose ratio text makes `float(...)` raise. -/
def faultEntry : Entry := ⟨"t2", "http://feed/2", "nodate", some "【割合】1.2.3pt"⟩

/-- A feed entry with an unparseable published date and a parseable
obligation date. -/
def oblEntry : Entry :=
  ⟨"t3", "http://feed/3", "nodate", some "【報告義務発生日】2024年5月1日"⟩

/-- The record `extractData` produces for `oblEntry`. -/
def oblEntryData : DataRec :=
  { title := "t3", link := "http://feed/3", published := "nodate",
    published_date := none, ticker := none, company := none,
    percentage := none, percentage_change := none,
    percentage_change_value := none, percentage_change_direction := 0,
    change_flag := none, report_date := some "2024年5月1日",
    report_date_timestamp := some ⟨2024, 5, 1, 0, 0, 0, none⟩,
    reason := none, reason_type := 0, purpose := none,
    report_date_close := none, current_price := none,
    year := some 2024, month := some 5, day := some 1 }

/-- A one-row store holding `plainEntry`'s record. -/
def sampleDB : List Row := [insertRow 0 (initForEntry plainEntry)]

end Hikari


namespace Hikari



theorem listStartsWith_of_append {l1 l2 t : List Char}
    (h : listStartsWith (l1 ++ l2) t = true) : listStartsWith l1 t = true := by
  induction l1 generalizing t with
  | nil => rfl
  | cons p ps ih =>
    cases t with
    | nil => simp [listStartsWith] at h
    | cons c cs =>
      simp only [List.cons_append, listStartsWith, Bool.and_eq_true] at h ⊢
      exact ⟨h.1, ih h.2⟩

theorem hasRunLitHere_of_append {l1 l2 t : List Char}
    (h : hasRunLitHere (l1 ++ l2) t = true) : hasRunLitHere l1 t = true := by
  unfold hasRunLitHere at h ⊢
  simp only [Bool.and_eq_true] at h ⊢
  exact ⟨h.1, listStartsWith_of_append h.2⟩

theorem searchRunLit_cons_none {l : List Char} {c : Char} {cs : List Char}
    (h : searchRunLit l (c :: cs) = none) :
    hasRunLitHere l (c :: cs) = false ∧ searchRunLit l cs = none := by
  unfold searchRunLit at h
  split at h
  · exact absurd h (by simp)
  · rename_i hcond
    exact ⟨by simpa using hcond, h⟩

theorem hasRunLitHere_false_of_none {l t : List Char}
    (h : searchRunLit l t = none) : hasRunLitHere l t = false := by
  cases t with
  | nil => simp [hasRunLitHere, List.takeWhile]
  | cons c cs => exact (searchRunLit_cons_none h).1

theorem searchRunLit_append_none {l1 l2 t : List Char}
    (h : searchRunLit l1 t = none) : searchRunLit (l1 ++ l2) t = none := by
  induction t with
  | nil => rfl
  | cons c cs ih =>
    obtain ⟨h1, h2⟩ := searchRunLit_cons_none h
    unfold searchRunLit
    rw [if_neg]
    · exact ih h2
    · intro hc
      rw [hasRunLitHere_of_append hc] at h1
      cases h1

theorem searchDeltaRun_none_of_bare {t : List Char}
    (h : searchRunLit ['p', 't'] t = none) : searchDeltaRun t = none := by
  induction t with
  | nil => rfl
  | cons c cs ih =>
    obtain ⟨h1, h2⟩ := searchRunLit_cons_none h
    unfold searchDeltaRun
    rw [if_neg]
    · exact ih h2
    · intro hc
      rw [Bool.and_eq_true] at hc
      rw [hasRunLitHere_false_of_none h2] at hc
      exact (by cases hc.2 : False)

/-- Claim C7: `parse_date` tries the fixed format list in order — the
RFC-822-style feed format first, then the localized `YYYY年MM月DD日`
format — returns the first successful parse, and returns an absent result
exactly when no format matches.  The parser is a total function into
`Option`, so no exception escapes it. -/
theorem claim7_parse_date_format_order (s : String) :
    parse_date s = (match strptimeRFC822 s.toList with
                    | some d => some d
                    | none => strptimeJP s.toList) ∧
    (parse_date s = none ↔ strptimeRFC822 s.toList = none ∧ strptimeJP s.toList = none) := by
  constructor
  · unfold parse_date dateFormats
    simp only [String.toList]
    cases hr : strptimeRFC822 s.data <;> cases hj : strptimeJP s.data <;>
      simp [tryFormats, hr, hj]
  · unfold parse_date dateFormats
    simp only [String.toList]
    cases hr : strptimeRFC822 s.data <;> cases hj : strptimeJP s.data <;>
      simp [tryFormats, hr, hj]

/-- Claim C9: the numeric token class `[\d.]+` of
`extract_percentage_change` admits several decimal points, so on input
`"1.2.3pt"` the bare pattern matches with group `"1.2.3"` and the
`float(...)` conversion raises instead of returning a (value, direction)
pair. -/
theorem claim9_change_extractor_raises :
    searchRunLit ['p', 't'] "1.2.3pt".toList = some "1.2.3".toList ∧
    pyFloat "1.2.3".toList = none ∧
    extract_percentage_change "1.2.3pt" = .error () := by decide

/-- Claim C2: the percentage-change sub-extractor tries up-arrow,
down-arrow, delta-prefix and bare patterns in this order:
`"1.02pt↑"` gives (1.02, increase), `"2.03pt↓"` gives (2.03, decrease),
`"Δ28.74pt"` gives (28.74, decrease), `"5.00pt"` gives (5.00, unchanged),
and the empty string or any input without a `[\d.]+pt` occurrence gives
(absent, unchanged). -/
theorem claim2_percentage_change_cases :
    extract_percentage_change "1.02pt↑" = .ok (some (102/100 : ℚ), 1) ∧
    extract_percentage_change "2.03pt↓" = .ok (some (203/100 : ℚ), -1) ∧
    extract_percentage_change "Δ28.74pt" = .ok (some (2874/100 : ℚ), -1) ∧
    extract_percentage_change "5.00pt" = .ok (some (5 : ℚ), 0) ∧
    extract_percentage_change "" = .ok (none, 0) ∧
    (∀ t : String, searchRunLit ['p', 't'] t.toList = none →
      extract_percentage_change t = .ok (none, 0)) := by
  refine ⟨by with_unfolding_all decide, by with_unfolding_all decide,
         by with_unfolding_all decide, by with_unfolding_all decide, by decide, ?_⟩
  intro t ht
  have h1 : searchRunLit ['p', 't', '↑'] t.toList = none :=
    @searchRunLit_append_none ['p', 't'] ['↑'] _ ht
  have h2 : searchRunLit ['p', 't', '↓'] t.toList = none :=
    @searchRunLit_append_none ['p', 't'] ['↓'] _ ht
  have h3 := searchDeltaRun_none_of_bare ht
  unfold extract_percentage_change
  split
  · rfl
  · simp only [h1, h2, h3, ht]






theorem firstCat_eq_findQ (l : List (String × Nat)) (s : String) :
    firstCat l s =
      (match l.find? (fun kv => containsStr kv.1 s) with
       | some kv => kv.2
       | none => 0) := by
  induction l with
  | nil => rfl
  | cons kv rest ih =>
    obtain ⟨k, v⟩ := kv
    unfold firstCat
    rw [List.find?]
    dsimp only
    cases hc : containsStr k s
    · simp [ih]
    · simp

/-- Claim C4: `categorize_reason` checks the fixed phrase list in its
defined order and returns the code of the first phrase occurring as a
substring of the input; empty or unmatched input returns 0; in particular
any text containing 新規 but none of the two earlier (ratio-change)
phrases classifies to 3. -/
theorem claim4_categorize_first_match :
    (∀ s : String, categorize_reason s =
      (match categoriesList.find? (fun kv => containsStr kv.1 s) with
       | some kv => kv.2
       | none => 0)) ∧
    categorize_reason "" = 0 ∧
    (∀ s : String,
      containsStr "新規" s = true →
      containsStr "株券等保有割合が1%以上増加" s = false →
      containsStr "株券等保有割合が1%以上減少" s = false →
      categorize_reason s = 3) ∧
    (∀ s : String, (∀ kv ∈ categoriesList, containsStr kv.1 s = false) →
      categorize_reason s = 0) := by
  have hmain : ∀ s : String, categorize_reason s =
      (match categoriesList.find? (fun kv => containsStr kv.1 s) with
       | some kv => kv.2
       | none => 0) := by
    intro s
    unfold categorize_reason
    split
    · rename_i hs
      subst hs
      decide
    · exact firstCat_eq_findQ categoriesList s
  refine ⟨hmain, by decide, ?_, ?_⟩
  · intro s h3 h1 h2
    rw [hmain s]
    simp only [categoriesList, List.find?]
    rw [h1, h2, h3]
  · intro s hall
    rw [hmain s]
    have h1 := hall ("株券等保有割合が1%以上増加", 1) (by simp [categoriesList])
    have h2 := hall ("株券等保有割合が1%以上減少", 2) (by simp [categoriesList])
    have h3 := hall ("新規", 3) (by simp [categoriesList])
    have h4 := hall ("変更", 4) (by simp [categoriesList])
    have h5 := hall ("訂正", 5) (by simp [categoriesList])
    have h6 := hall ("基準日", 6) (by simp [categoriesList])
    simp only [categoriesList, List.find?]
    rw [h1, h2, h3, h4, h5, h6]

/-- Witness for C4 at a concrete reason text. -/
theorem claim4_categorize_first_match_witness :
    containsStr "新規" "大量保有：新規提出" = true ∧
    categorize_reason "大量保有：新規提出" = 3 :=
  ⟨by decide, (claim4_categorize_first_match.2.2.1) "大量保有：新規提出" (by decide) (by decide) (by decide)⟩






theorem parse_date_eq (s : String) :
    parse_date s = (match strptimeRFC822 s.toList with
                    | some d => some d
                    | none => strptimeJP s.toList) := by
  unfold parse_date dateFormats
  simp only [String.toList]
  cases hr : strptimeRFC822 s.data <;> cases hj : strptimeJP s.data <;>
    simp [tryFormats, hr, hj]

theorem mkDateTime_pos_year {y mo d h mi s : Nat} {tz : Option Int} {dt : PyDateTime}
    (hm : mkDateTime y mo d h mi s tz = some dt) : 1 ≤ dt.year := by
  unfold mkDateTime at hm
  split at hm
  · rename_i hcond
    cases hm
    simp only [Bool.and_eq_true, decide_eq_true_eq] at hcond
    exact hcond.1.1.1.1.1.1.1.1.1
  · cases hm

theorem strptimeRFC822_pos_year {s : List Char} {dt : PyDateTime}
    (h : strptimeRFC822 s = some dt) : 1 ≤ dt.year := by
  unfold strptimeRFC822 at h
  obtain ⟨⟨w, r1⟩, -, h⟩ := Option.bind_eq_some.mp h
  obtain ⟨r2, -, h⟩ := Option.bind_eq_some.mp h
  obtain ⟨r3, -, h⟩ := Option.bind_eq_some.mp h
  obtain ⟨⟨d, r4⟩, -, h⟩ := Option.bind_eq_some.mp h
  obtain ⟨r5, -, h⟩ := Option.bind_eq_some.mp h
  obtain ⟨⟨mo, r6⟩, -, h⟩ := Option.bind_eq_some.mp h
  obtain ⟨r7, -, h⟩ := Option.bind_eq_some.mp h
  obtain ⟨⟨y, r8⟩, -, h⟩ := Option.bind_eq_some.mp h
  obtain ⟨r9, -, h⟩ := Option.bind_eq_some.mp h
  obtain ⟨⟨hh, r10⟩, -, h⟩ := Option.bind_eq_some.mp h
  obtain ⟨r11, -, h⟩ := Option.bind_eq_some.mp h
  obtain ⟨⟨mi, r12⟩, -, h⟩ := Option.bind_eq_some.mp h
  obtain ⟨r13, -, h⟩ := Option.bind_eq_some.mp h
  obtain ⟨⟨se, r14⟩, -, h⟩ := Option.bind_eq_some.mp h
  obtain ⟨r15, -, h⟩ := Option.bind_eq_some.mp h
  obtain ⟨⟨tz, r16⟩, -, h⟩ := Option.bind_eq_some.mp h
  dsimp only at h
  split at h
  · exact mkDateTime_pos_year h
  · cases h

theorem strptimeJP_pos_year {s : List Char} {dt : PyDateTime}
    (h : strptimeJP s = some dt) : 1 ≤ dt.year := by
  unfold strptimeJP at h
  obtain ⟨⟨y, r1⟩, -, h⟩ := Option.bind_eq_some.mp h
  obtain ⟨r2, -, h⟩ := Option.bind_eq_some.mp h
  obtain ⟨⟨mo, r3⟩, -, h⟩ := Option.bind_eq_some.mp h
  obtain ⟨r4, -, h⟩ := Option.bind_eq_some.mp h
  obtain ⟨⟨d, r5⟩, -, h⟩ := Option.bind_eq_some.mp h
  obtain ⟨r6, -, h⟩ := Option.bind_eq_some.mp h
  split at h
  · exact mkDateTime_pos_year h
  · cases h

theorem parse_date_pos_year {s : String} {dt : PyDateTime}
    (h : parse_date s = some dt) : 1 ≤ dt.year := by
  rw [parse_date_eq] at h
  cases hr : strptimeRFC822 s.toList with
  | some d =>
    rw [hr] at h
    cases h
    exact strptimeRFC822_pos_year hr
  | none =>
    rw [hr] at h
    exact strptimeJP_pos_year h






theorem applyPair_spec {d : DataRec} {k v : List Char} {d1 : DataRec}
    (h : applyPair d k v = .ok d1) :
    (k = "銘柄".toList ∧
      d1 = { d with ticker := extract_ticker_number ⟨collapseWs v⟩,
                    company := match companyFrom (collapseWs v) with
                               | some c => some c
                               | none => d.company }) ∨
    (k = "割合".toList ∧ ∃ vc dir,
      extract_percentage_change ⟨collapseWs v⟩ = .ok (vc, dir) ∧
      d1 = { d with percentage := extract_percentage ⟨collapseWs v⟩,
                    percentage_change_value := vc,
                    percentage_change_direction := dir }) ∨
    (k = "報告義務発生日".toList ∧
      ((∃ dt, parse_date ⟨collapseWs v⟩ = some dt ∧
         ((pyTruthyNat d.year = false ∧
            d1 = { d with report_date := some (⟨collapseWs v⟩ : String),
                          report_date_timestamp := some dt,
                          year := some dt.year, month := some dt.month,
                          day := some dt.day }) ∨
          (pyTruthyNat d.year = true ∧
            d1 = { d with report_date := some (⟨collapseWs v⟩ : String),
                          report_date_timestamp := some dt }))) ∨
       (parse_date ⟨collapseWs v⟩ = none ∧
         d1 = { d with report_date := some (⟨collapseWs v⟩ : String),
                       report_date_timestamp := none }))) ∨
    (k = "提出事由".toList ∧
      d1 = { d with reason := some (⟨collapseWs v⟩ : String),
                    reason_type := categorize_reason ⟨collapseWs v⟩ }) ∨
    (k = "保有目的".toList ∧
      d1 = { d with purpose := some (⟨collapseWs v⟩ : String) }) ∨
    (k ≠ "銘柄".toList ∧ k ≠ "割合".toList ∧ k ≠ "報告義務発生日".toList ∧
      k ≠ "提出事由".toList ∧ k ≠ "保有目的".toList ∧ d1 = d) := by
  unfold applyPair at h
  dsimp only at h
  by_cases hk1 : k = "銘柄".toList
  · rw [if_pos hk1] at h
    cases h
    exact Or.inl ⟨hk1, rfl⟩
  · rw [if_neg hk1] at h
    by_cases hk2 : k = "割合".toList
    · rw [if_pos hk2] at h
      cases hp : extract_percentage_change (⟨collapseWs v⟩ : String) with
      | error err =>
        rw [hp] at h
        cases h
      | ok p =>
        obtain ⟨vc, dir⟩ := p
        rw [hp] at h
        dsimp only at h
        cases h
        exact Or.inr (Or.inl ⟨hk2, vc, dir, rfl, rfl⟩)
    · rw [if_neg hk2] at h
      by_cases hk3 : k = "報告義務発生日".toList
      · rw [if_pos hk3] at h
        refine Or.inr (Or.inr (Or.inl ⟨hk3, ?_⟩))
        cases hdt : parse_date (⟨collapseWs v⟩ : String) with
        | some dt =>
          rw [hdt] at h
          dsimp only at h
          split at h
          · rename_i htr
            cases h
            refine Or.inl ⟨dt, rfl, Or.inl ⟨?_, rfl⟩⟩
            simpa using htr
          · rename_i htr
            cases h
            refine Or.inl ⟨dt, rfl, Or.inr ⟨?_, rfl⟩⟩
            simpa using htr
        | none =>
          rw [hdt] at h
          dsimp only at h
          cases h
          exact Or.inr ⟨rfl, rfl⟩
      · rw [if_neg hk3] at h
        by_cases hk4 : k = "提出事由".toList
        · rw [if_pos hk4] at h
          cases h
          exact Or.inr (Or.inr (Or.inr (Or.inl ⟨hk4, rfl⟩)))
        · rw [if_neg hk4] at h
          by_cases hk5 : k = "保有目的".toList
          · rw [if_pos hk5] at h
            cases h
            exact Or.inr (Or.inr (Or.inr (Or.inr (Or.inl ⟨hk5, rfl⟩))))
          · rw [if_neg hk5] at h
            cases h
            exact Or.inr (Or.inr (Or.inr (Or.inr (Or.inr ⟨hk1, hk2, hk3, hk4, hk5, rfl⟩))))






theorem applyPair_provenance {d : DataRec} {k v : List Char} {d1 : DataRec}
    (h : applyPair d k v = .ok d1) :
    d1.link = d.link ∧ d1.title = d.title ∧ d1.published = d.published ∧
    d1.published_date = d.published_date := by
  rcases applyPair_spec h with ⟨-, rfl⟩ | ⟨-, vc, dir, -, rfl⟩ |
    ⟨-, ⟨dt, -, ⟨-, rfl⟩ | ⟨-, rfl⟩⟩ | ⟨-, rfl⟩⟩ | ⟨-, rfl⟩ | ⟨-, rfl⟩ |
    ⟨-, -, -, -, -, rfl⟩ <;>
    exact ⟨rfl, rfl, rfl, rfl⟩

theorem applyPair_ymd_keep {d : DataRec} {k v : List Char} {d1 : DataRec} {y : Nat}
    (h : applyPair d k v = .ok d1) (hy : d.year = some y) (hy0 : y ≠ 0) :
    d1.year = d.year ∧ d1.month = d.month ∧ d1.day = d.day := by
  rcases applyPair_spec h with ⟨-, rfl⟩ | ⟨-, vc, dir, -, rfl⟩ |
    ⟨-, ⟨dt, -, ⟨htr, rfl⟩ | ⟨-, rfl⟩⟩ | ⟨-, rfl⟩⟩ | ⟨-, rfl⟩ | ⟨-, rfl⟩ |
    ⟨-, -, -, -, -, rfl⟩ <;>
    try exact ⟨rfl, rfl, rfl⟩
  rw [hy] at htr
  simp [pyTruthyNat, hy0] at htr

theorem foldPairs_provenance {ps : List (List Char × List Char)} {d d' : DataRec}
    (h : foldPairs d ps = .ok d') :
    d'.link = d.link ∧ d'.title = d.title ∧ d'.published = d.published ∧
    d'.published_date = d.published_date := by
  induction ps generalizing d with
  | nil =>
    cases h
    exact ⟨rfl, rfl, rfl, rfl⟩
  | cons kv ps ih =>
    obtain ⟨k, v⟩ := kv
    unfold foldPairs at h
    split at h
    · cases h
    · rename_i d1 h1
      obtain ⟨hl, ht, hp, hpd⟩ := applyPair_provenance h1
      obtain ⟨hl', ht', hp', hpd'⟩ := ih h
      exact ⟨hl'.trans hl, ht'.trans ht, hp'.trans hp, hpd'.trans hpd⟩

theorem foldPairs_ymd_keep {ps : List (List Char × List Char)} {d d' : DataRec} {y : Nat}
    (h : foldPairs d ps = .ok d') (hy : d.year = some y) (hy0 : y ≠ 0) :
    d'.year = some y ∧ d'.month = d.month ∧ d'.day = d.day := by
  induction ps generalizing d with
  | nil =>
    cases h
    exact ⟨hy, rfl, rfl⟩
  | cons kv ps ih =>
    obtain ⟨k, v⟩ := kv
    unfold foldPairs at h
    split at h
    · cases h
    · rename_i d1 h1
      obtain ⟨h1y, h1m, h1d⟩ := applyPair_ymd_keep h1 hy hy0
      obtain ⟨h2y, h2m, h2d⟩ := ih h (h1y.trans hy)
      exact ⟨h2y, h2m.trans h1m, h2d.trans h1d⟩


theorem foldPairs_obl_fallback {ps : List (List Char × List Char)} {d d' : DataRec}
    (h : foldPairs d ps = .ok d')
    (hy : d.year = none) (hm : d.month = none) (hd : d.day = none) :
    ∀ dt, firstOblDate ps = some dt →
      d'.year = some dt.year ∧ d'.month = some dt.month ∧ d'.day = some dt.day := by
  induction ps generalizing d with
  | nil =>
    intro dt hdt
    simp [firstOblDate] at hdt
  | cons kv ps ih =>
    obtain ⟨k, v⟩ := kv
    intro dt hdt
    rw [firstOblDate, List.findSome?] at hdt
    unfold foldPairs at h
    split at h
    · cases h
    · rename_i d1 h1
      cases hf : (if k = "報告義務発生日".toList then parse_date (⟨collapseWs v⟩ : String) else none) with
      | some dt0 =>
        rw [hf] at hdt
        cases hdt
        by_cases hk : k = "報告義務発生日".toList
        · rw [if_pos hk] at hf
          have h1y : d1.year = some dt.year ∧ d1.month = some dt.month ∧ d1.day = some dt.day := by
            rcases applyPair_spec h1 with ⟨hk', rfl⟩ | ⟨hk', vc, dir, -, rfl⟩ |
              ⟨-, ⟨dt1, hdt1, ⟨-, rfl⟩ | ⟨htr, rfl⟩⟩ | ⟨hnone, rfl⟩⟩ |
              ⟨hk', rfl⟩ | ⟨hk', rfl⟩ | ⟨-, -, hk', -, -, rfl⟩
            · rw [hk] at hk'; simp at hk'
            · rw [hk] at hk'; simp at hk'
            · rw [hf] at hdt1
              cases hdt1
              exact ⟨rfl, rfl, rfl⟩
            · rw [hy] at htr
              simp [pyTruthyNat] at htr
            · rw [hf] at hnone
              cases hnone
            · rw [hk] at hk'; simp at hk'
            · rw [hk] at hk'; simp at hk'
            · exact absurd hk hk'
          have hpos : 1 ≤ dt.year := parse_date_pos_year hf
          obtain ⟨h2y, h2m, h2d⟩ := foldPairs_ymd_keep h h1y.1 (by omega)
          exact ⟨h2y, h2m.trans h1y.2.1, h2d.trans h1y.2.2⟩
        · rw [if_neg hk] at hf
          cases hf
      | none =>
        rw [hf] at hdt
        have h1keep : d1.year = none ∧ d1.month = none ∧ d1.day = none := by
          rcases applyPair_spec h1 with ⟨hk', rfl⟩ | ⟨hk', vc, dir, -, rfl⟩ |
            ⟨hk', ⟨dt1, hdt1, ⟨-, rfl⟩ | ⟨htr, rfl⟩⟩ | ⟨hnone, rfl⟩⟩ |
            ⟨hk', rfl⟩ | ⟨hk', rfl⟩ | ⟨-, -, -, -, -, rfl⟩
          · exact ⟨hy, hm, hd⟩
          · exact ⟨hy, hm, hd⟩
          · rw [if_pos hk'] at hf
            rw [hf] at hdt1
            cases hdt1
          · rw [hy] at htr
            simp [pyTruthyNat] at htr
          · exact ⟨hy, hm, hd⟩
          · exact ⟨hy, hm, hd⟩
          · exact ⟨hy, hm, hd⟩
          · exact ⟨hy, hm, hd⟩
        exact ih h h1keep.1 h1keep.2.1 h1keep.2.2 dt hdt






theorem categorize_reason_mem (s : String) :
    categorize_reason s ∈ [0, 1, 2, 3, 4, 5, 6] := by
  unfold categorize_reason
  split
  · simp
  · simp only [categoriesList, firstCat]
    split_ifs <;> simp

theorem extract_percentage_change_dir {s : String} {vc : Option ℚ} {dir : Int}
    (h : extract_percentage_change s = .ok (vc, dir)) :
    dir = 1 ∨ dir = -1 ∨ dir = 0 := by
  unfold extract_percentage_change at h
  repeat' split at h
  all_goals simp only [Except.ok.injEq, Prod.mk.injEq, reduceCtorEq] at h
  all_goals simp [h.2.symm]

theorem applyPair_domain {d : DataRec} {k v : List Char} {d1 : DataRec}
    (h : applyPair d k v = .ok d1)
    (hr : d.reason_type ∈ [0, 1, 2, 3, 4, 5, 6])
    (hd : d.percentage_change_direction = 1 ∨ d.percentage_change_direction = -1 ∨
          d.percentage_change_direction = 0) :
    d1.reason_type ∈ [0, 1, 2, 3, 4, 5, 6] ∧
    (d1.percentage_change_direction = 1 ∨ d1.percentage_change_direction = -1 ∨
     d1.percentage_change_direction = 0) := by
  rcases applyPair_spec h with ⟨-, rfl⟩ | ⟨-, vc, dir, hp, rfl⟩ |
    ⟨-, ⟨dt, -, ⟨-, rfl⟩ | ⟨-, rfl⟩⟩ | ⟨-, rfl⟩⟩ | ⟨-, rfl⟩ | ⟨-, rfl⟩ |
    ⟨-, -, -, -, -, rfl⟩
  · exact ⟨hr, hd⟩
  · exact ⟨hr, extract_percentage_change_dir hp⟩
  · exact ⟨hr, hd⟩
  · exact ⟨hr, hd⟩
  · exact ⟨hr, hd⟩
  · exact ⟨categorize_reason_mem _, hd⟩
  · exact ⟨hr, hd⟩
  · exact ⟨hr, hd⟩

theorem foldPairs_domain {ps : List (List Char × List Char)} {d d' : DataRec}
    (h : foldPairs d ps = .ok d')
    (hr : d.reason_type ∈ [0, 1, 2, 3, 4, 5, 6])
    (hd : d.percentage_change_direction = 1 ∨ d.percentage_change_direction = -1 ∨
          d.percentage_change_direction = 0) :
    d'.reason_type ∈ [0, 1, 2, 3, 4, 5, 6] ∧
    (d'.percentage_change_direction = 1 ∨ d'.percentage_change_direction = -1 ∨
     d'.percentage_change_direction = 0) := by
  induction ps generalizing d with
  | nil =>
    cases h
    exact ⟨hr, hd⟩
  | cons kv ps ih =>
    obtain ⟨k, v⟩ := kv
    unfold foldPairs at h
    split at h
    · cases h
    · rename_i d1 h1
      obtain ⟨hr1, hd1⟩ := applyPair_domain h1 hr hd
      exact ih h hr1 hd1

theorem processEntry_spec {pf : ProviderFn} {e : Entry} {d : DataRec} {q : Bool}
    (h : processEntry pf e = .ok (d, q)) :
    ∃ d0, extractData e = .ok d0 ∧
      ((∃ tk ts, d0.ticker = some tk ∧ d0.report_date_timestamp = some ts ∧ tk ≠ "" ∧
         d = { d0 with report_date_close := (fetch_prices pf tk ts).1,
                       current_price := (fetch_prices pf tk ts).2 } ∧ q = true) ∨
       (d = d0 ∧ q = false)) := by
  unfold processEntry at h
  split at h
  · cases h
  · rename_i d0 h0
    refine ⟨d0, h0, ?_⟩
    split at h
    · rename_i tk ts htk hts
      split at h
      · rename_i hne
        cases h
        exact Or.inl ⟨tk, ts, htk, hts, by simpa using hne, rfl, rfl⟩
      · rename_i hne
        cases h
        exact Or.inr ⟨rfl, rfl⟩
    · cases h
      exact Or.inr ⟨rfl, rfl⟩

theorem extractData_link {e : Entry} {d : DataRec} (h : extractData e = .ok d) :
    d.link = e.link ∧ d.title = e.title ∧ d.published = e.published ∧
    d.published_date = parse_date e.published := by
  unfold extractData at h
  obtain ⟨hl, ht, hp, hpd⟩ := foldPairs_provenance h
  exact ⟨hl, ht, hp, hpd⟩

theorem processEntry_link {pf : ProviderFn} {e : Entry} {d : DataRec} {q : Bool}
    (h : processEntry pf e = .ok (d, q)) : d.link = e.link := by
  obtain ⟨d0, h0, hsp⟩ := processEntry_spec h
  rcases hsp with ⟨tk, ts, -, -, -, rfl, -⟩ | ⟨rfl, -⟩
  · exact (extractData_link h0).1
  · exact (extractData_link h0).1






/-- Claim C5: when the published date parses, the stored year/month/day
come from it; when it fails to parse and some obligation-date label value
parses, year/month/day come from the (first) parsed obligation date. -/
theorem claim5_ymd_fallback (e : Entry) (d : DataRec) (hok : extractData e = .ok d) :
    (∀ dt, parse_date e.published = some dt →
       d.year = some dt.year ∧ d.month = some dt.month ∧ d.day = some dt.day) ∧
    (parse_date e.published = none →
       ∀ dt, firstOblDate (contentPairs e) = some dt →
         d.year = some dt.year ∧ d.month = some dt.month ∧ d.day = some dt.day) := by
  unfold extractData at hok
  constructor
  · intro dt hpub
    have hinit : initForEntry e =
        initData e (some dt) (some dt.year) (some dt.month) (some dt.day) := by
      unfold initForEntry
      rw [hpub]
      rfl
    rw [hinit] at hok
    have hpos := parse_date_pos_year hpub
    have hk := foldPairs_ymd_keep hok rfl (by omega)
    exact ⟨hk.1, hk.2.1, hk.2.2⟩
  · intro hpub dt hf
    have hinit : initForEntry e = initData e none none none none := by
      unfold initForEntry
      rw [hpub]
      rfl
    rw [hinit] at hok
    exact foldPairs_obl_fallback hok rfl rfl rfl dt hf

/-- Claim C8: every record the entry pipeline produces has `reason_type`
in the closed set {0,…,6} (0 the unclassified default) and
`percentage_change_direction` in {+1, −1, 0} — also when the ratio or
reason labels are absent entirely. -/
theorem claim8_closed_codomains (pf : ProviderFn) (e : Entry) (d : DataRec) (q : Bool)
    (h : processEntry pf e = .ok (d, q)) :
    d.reason_type ∈ [0, 1, 2, 3, 4, 5, 6] ∧
    (d.percentage_change_direction = 1 ∨ d.percentage_change_direction = -1 ∨
     d.percentage_change_direction = 0) := by
  obtain ⟨d0, h0, hsp⟩ := processEntry_spec h
  unfold extractData at h0
  have hdom := foldPairs_domain h0 (by simp [initForEntry, initData])
    (by simp [initForEntry, initData])
  rcases hsp with ⟨tk, ts, -, -, -, rfl, -⟩ | ⟨rfl, -⟩
  · exact hdom
  · exact hdom

/-- Claim C10: an entry without a description field is processed with the
empty description: no label pairs are extracted, every extracted field is
absent, `reason_type` and `percentage_change_direction` are 0, the price
provider is not queried (the flag is `false`), and the entry is still
upserted keyed on its link. -/
theorem claim10_missing_description (pf : ProviderFn) (e : Entry) (he : e.description = none) :
    contentPairs e = [] ∧
    extractData e = .ok (initForEntry e) ∧
    processEntry pf e = .ok (initForEntry e, false) ∧
    (initForEntry e).ticker = none ∧ (initForEntry e).company = none ∧
    (initForEntry e).percentage = none ∧
    (initForEntry e).percentage_change_value = none ∧
    (initForEntry e).percentage_change_direction = 0 ∧
    (initForEntry e).report_date = none ∧
    (initForEntry e).report_date_timestamp = none ∧
    (initForEntry e).reason = none ∧ (initForEntry e).reason_type = 0 ∧
    (initForEntry e).purpose = none ∧
    (initForEntry e).report_date_close = none ∧
    (initForEntry e).current_price = none ∧
    (∀ db t, processFeed pf [e] db t =
      ⟨(upsertReport db t e (initForEntry e)).1,
       if (upsertReport db t e (initForEntry e)).2 then 1 else 0,
       if (upsertReport db t e (initForEntry e)).2 then 0 else 1, true⟩) := by
  have hcp : contentPairs e = [] := by
    unfold contentPairs cleanDescription
    rw [he]
    rfl
  have hext : extractData e = .ok (initForEntry e) := by
    unfold extractData
    rw [hcp]
    rfl
  have hpe : processEntry pf e = .ok (initForEntry e, false) := by
    unfold processEntry
    rw [hext]
    rfl
  refine ⟨hcp, hext, hpe, rfl, rfl, rfl, rfl, rfl, rfl, rfl, rfl, rfl, rfl, rfl, rfl, ?_⟩
  intro db t
  unfold processFeed
  rw [hpe]
  cases hup : upsertReport db t e (initForEntry e) with
  | mk db1 ins =>
    simp only [processFeed]
    rw [hup]
    simp






theorem rowLinks_update (db : List Row) (now : Nat) (l : String) (d : DataRec) :
    rowLinks (db.map fun r => if r.link == l then updateRow r now d else r) = rowLinks db := by
  induction db with
  | nil => rfl
  | cons r rs ih =>
    simp only [rowLinks, List.map_cons, List.cons.injEq] at ih ⊢
    refine ⟨?_, ih⟩
    split
    · rfl
    · rfl

theorem mem_rowLinks {db : List Row} {l : String} :
    l ∈ rowLinks db ↔ ∃ r ∈ db, r.link = l := by
  simp [rowLinks]

theorem upsert_nodup {db : List Row} {now : Nat} {e : Entry} {d : DataRec}
    (hl : d.link = e.link) (hnd : (rowLinks db).Nodup) :
    (rowLinks (upsertReport db now e d).1).Nodup := by
  unfold upsertReport
  split
  · dsimp only
    rw [rowLinks_update]
    exact hnd
  · rename_i hany
    dsimp only
    unfold rowLinks
    rw [List.map_append]
    rw [List.nodup_append]
    refine ⟨hnd, by simp, ?_⟩
    simp only [List.map_cons, List.map_nil, List.disjoint_singleton]
    intro hmem
    apply hany
    rw [List.any_eq_true]
    have : (insertRow now d).link = e.link := by
      simpa [insertRow] using hl
    rw [this] at hmem
    obtain ⟨r, hr, hrl⟩ := (@mem_rowLinks db e.link).mp hmem
    exact ⟨r, hr, by simp [hrl]⟩

theorem processEntry_ok_of_extract {pf : ProviderFn} {e : Entry} {d0 : DataRec}
    (h0 : extractData e = .ok d0) :
    ∃ d q, processEntry pf e = .ok (d, q) := by
  unfold processEntry
  rw [h0]
  dsimp only
  split
  · split
    · exact ⟨_, _, rfl⟩
    · exact ⟨_, _, rfl⟩
  · exact ⟨_, _, rfl⟩

theorem processEntry_error_of_extract {pf : ProviderFn} {e : Entry}
    (h0 : (extractData e).isOk = false) : processEntry pf e = .error () := by
  unfold processEntry
  cases h : extractData e with
  | error err => rfl
  | ok d => rw [h] at h0; cases h0

theorem processFeed_single {pf : ProviderFn} {e : Entry} {d : DataRec} {q : Bool}
    (hpe : processEntry pf e = .ok (d, q)) (db : List Row) (t : Nat) :
    processFeed pf [e] db t =
      ⟨(upsertReport db t e d).1,
       if (upsertReport db t e d).2 then 1 else 0,
       if (upsertReport db t e d).2 then 0 else 1, true⟩ := by
  unfold processFeed
  rw [hpe]
  cases hup : upsertReport db t e d with
  | mk db1 ins =>
    simp only [processFeed]
    rw [hup]
    simp

theorem processFeed_nodup (pf : ProviderFn) (es : List Entry) :
    ∀ db t, (rowLinks db).Nodup → (rowLinks (processFeed pf es db t).db).Nodup := by
  induction es with
  | nil => intro db t h; exact h
  | cons e es ih =>
    intro db t h
    unfold processFeed
    cases hpe : processEntry pf e with
    | error err => exact h
    | ok p =>
      obtain ⟨d, q⟩ := p
      dsimp only
      cases hup : upsertReport db t e d with
      | mk db1 ins =>
        dsimp only
        have hnd1 : (rowLinks db1).Nodup := by
          have hx := @upsert_nodup db t e d (processEntry_link hpe) h
          rw [hup] at hx
          exact hx
        exact ih db1 (t + 1) hnd1






/-- Claim C1: the store keeps at most one row per link.  An entry whose
link already has a row runs the UPDATE (overwriting the mutable columns
and setting `updated_at`, counting as an update, preserving the row count
and the link multiset); an unseen link runs the INSERT (appending one row,
counting as an insert).  No row is ever deleted, and processing preserves
distinctness of links. -/
theorem claim1_upsert_unique_per_link (db : List Row) (now : Nat) (e : Entry) (d : DataRec) :
    (db.any (fun r => r.link == e.link) = true →
       upsertReport db now e d =
         (db.map fun r => if r.link == e.link then updateRow r now d else r, false) ∧
       (upsertReport db now e d).1.length = db.length ∧
       rowLinks (upsertReport db now e d).1 = rowLinks db) ∧
    (db.any (fun r => r.link == e.link) = false →
       upsertReport db now e d = (db ++ [insertRow now d], true) ∧
       (upsertReport db now e d).1.length = db.length + 1) ∧
    (∀ r : Row, (updateRow r now d).link = r.link ∧
       (updateRow r now d).created_at = r.created_at ∧
       (updateRow r now d).updated_at = now ∧
       (updateRow r now d).title = d.title ∧
       (updateRow r now d).published = d.published ∧
       (updateRow r now d).published_date = d.published_date ∧
       (updateRow r now d).ticker = d.ticker ∧
       (updateRow r now d).company = d.company ∧
       (updateRow r now d).percentage = d.percentage ∧
       (updateRow r now d).percentage_change_value = d.percentage_change_value ∧
       (updateRow r now d).percentage_change_direction = d.percentage_change_direction ∧
       (updateRow r now d).report_date = d.report_date ∧
       (updateRow r now d).report_date_timestamp = d.report_date_timestamp ∧
       (updateRow r now d).reason = d.reason ∧
       (updateRow r now d).reason_type = d.reason_type ∧
       (updateRow r now d).purpose = d.purpose ∧
       (updateRow r now d).report_date_close = d.report_date_close ∧
       (updateRow r now d).current_price = d.current_price ∧
       (updateRow r now d).year = d.year ∧
       (updateRow r now d).month = d.month ∧
       (updateRow r now d).day = d.day) ∧
    (∀ l, l ∈ rowLinks db → l ∈ rowLinks (upsertReport db now e d).1) ∧
    (∀ pf t d0 q, processEntry pf e = .ok (d0, q) →
       processFeed pf [e] db t =
         ⟨(upsertReport db t e d0).1,
          if (upsertReport db t e d0).2 then 1 else 0,
          if (upsertReport db t e d0).2 then 0 else 1, true⟩) ∧
    (∀ pf es t, (rowLinks db).Nodup →
       (rowLinks (processFeed pf es db t).db).Nodup) := by
  refine ⟨?_, ?_, ?_, ?_, ?_, ?_⟩
  · intro hany
    unfold upsertReport
    rw [if_pos hany]
    exact ⟨rfl, by simp [rowLinks], rowLinks_update db now e.link d⟩
  · intro hany
    unfold upsertReport
    rw [if_neg (by simp [hany])]
    exact ⟨rfl, by simp⟩
  · intro r
    exact ⟨rfl, rfl, rfl, rfl, rfl, rfl, rfl, rfl, rfl, rfl, rfl, rfl, rfl, rfl,
           rfl, rfl, rfl, rfl, rfl, rfl, rfl⟩
  · intro l hl
    unfold upsertReport
    split
    · dsimp only
      rw [rowLinks_update]
      exact hl
    · dsimp only
      unfold rowLinks at hl ⊢
      rw [List.map_append]
      exact List.mem_append_left _ hl
  · intro pf t d0 q hpe
    exact processFeed_single hpe db t
  · intro pf es t hnd
    exact processFeed_nodup pf es db t hnd

/-- Claim C6 helper: a prefix of fault-free entries processes completely,
and the first faulting entry freezes the store at the committed rows. -/
theorem processFeed_fault {pf : ProviderFn} {es1 : List Entry}
    (h1 : ∀ e ∈ es1, (extractData e).isOk = true) : ∀ db t,
    (processFeed pf es1 db t).completed = true ∧
    (∀ b es2, (extractData b).isOk = false →
      processFeed pf (es1 ++ b :: es2) db t =
        ⟨(processFeed pf es1 db t).db, (processFeed pf es1 db t).inserted_count,
         (processFeed pf es1 db t).updated_count, false⟩) := by
  induction es1 with
  | nil =>
    intro db t
    refine ⟨rfl, ?_⟩
    intro b es2 hb
    have hpb := @processEntry_error_of_extract pf b hb
    simp only [List.nil_append]
    unfold processFeed
    rw [hpb]
  | cons e es1 ih =>
    intro db t
    have he : (extractData e).isOk = true := h1 e (by simp)
    obtain ⟨d0, hd0⟩ : ∃ d0, extractData e = .ok d0 := by
      cases hx : extractData e with
      | error err => rw [hx] at he; cases he
      | ok d0 => exact ⟨d0, rfl⟩
    obtain ⟨d, q, hpe⟩ := @processEntry_ok_of_extract pf e d0 hd0
    have ih' := ih (fun x hx => h1 x (by simp [hx]))
    constructor
    · unfold processFeed
      rw [hpe]
      dsimp only
      exact (ih' (upsertReport db t e d).1 (t + 1)).1
    · intro b es2 hb
      have hL : (e :: es1) ++ b :: es2 = e :: (es1 ++ b :: es2) := rfl
      rw [hL]
      unfold processFeed
      rw [hpe]
      dsimp only
      rw [(ih' (upsertReport db t e d).1 (t + 1)).2 b es2 hb]

/-- Claim C6: each record is committed right after it is processed, so a
fault while processing a later entry leaves every previously committed
record stored, rolls back only the faulting entry, halts the remainder of
that feed, and remaining feeds of a multi-feed run are still attempted
(the per-feed `runFeeds` step is unconditional). -/
theorem claim6_commit_per_record (pf : ProviderFn) (es1 : List Entry) (b : Entry) (es2 : List Entry)
    (db : List Row) (t : Nat)
    (h1 : ∀ e ∈ es1, (extractData e).isOk = true)
    (h2 : (extractData b).isOk = false) :
    processFeed pf (es1 ++ b :: es2) db t =
      ⟨(processFeed pf es1 db t).db, (processFeed pf es1 db t).inserted_count,
       (processFeed pf es1 db t).updated_count, false⟩ ∧
    (processFeed pf es1 db t).completed = true ∧
    (∀ fs db2 t2, runFeeds pf ((es1 ++ b :: es2) :: fs) db2 t2 =
       runFeeds pf fs (processFeed pf (es1 ++ b :: es2) db2 t2).db
         (t2 + (es1 ++ b :: es2).length + 1)) := by
  refine ⟨(processFeed_fault h1 db t).2 b es2 h2, (processFeed_fault h1 db t).1, ?_⟩
  intro fs db2 t2
  rfl



/-- Claim C3 counterexample: a provider whose one-day history is empty but
whose latest-quote lookup answers a price yields `(none, some 100)` — the
claim's "empty result makes both fields absent" fails on `current_price`,
which the program fetches independently of the history. -/
theorem claim3_counterexample :
    fetch_prices emptyHistProvider "9435" ⟨2024, 1, 10, 0, 0, 0, none⟩ =
      (none, some 100) ∧
    (fetch_prices emptyHistProvider "9435" ⟨2024, 1, 10, 0, 0, 0, none⟩).2 ≠ none := by
  refine ⟨rfl, ?_⟩
  intro h
  cases h

/-- Claim C3 (amended): if the provider raises (at either query) both
enrichment fields are absent; an empty history makes `report_date_close`
absent and an absent quote makes `current_price` absent; `fetch_prices`
never raises to its caller, so extraction success always reaches the
upsert and the record is persisted. -/
theorem claim3_price_failure_leaves_fields_absent
    (pf : ProviderFn) (tk : String) (ts : PyDateTime) :
    ((pf (normalizeTicker tk) ts).hist = .error () →
       fetch_prices pf tk ts = (none, none)) ∧
    ((pf (normalizeTicker tk) ts).marketInfo = .error () →
       fetch_prices pf tk ts = (none, none)) ∧
    ((pf (normalizeTicker tk) ts).hist = .ok [] →
       (fetch_prices pf tk ts).1 = none) ∧
    ((pf (normalizeTicker tk) ts).marketInfo = .ok none →
       (fetch_prices pf tk ts).2 = none) ∧
    (∀ e d0, extractData e = .ok d0 → ∃ d q, processEntry pf e = .ok (d, q)) ∧
    (∀ e d q db t, processEntry pf e = .ok (d, q) →
       processFeed pf [e] db t =
         ⟨(upsertReport db t e d).1,
          if (upsertReport db t e d).2 then 1 else 0,
          if (upsertReport db t e d).2 then 0 else 1, true⟩) := by
  refine ⟨?_, ?_, ?_, ?_, ?_, ?_⟩
  · intro h
    unfold fetch_prices
    dsimp only
    rw [h]
  · intro h
    unfold fetch_prices
    dsimp only
    cases hh : (pf (normalizeTicker tk) ts).hist with
    | error err => rfl
    | ok bars => rw [h]
  · intro h
    unfold fetch_prices
    dsimp only
    rw [h]
    cases hq : (pf (normalizeTicker tk) ts).marketInfo with
    | error err => rfl
    | ok q => rfl
  · intro h
    unfold fetch_prices
    dsimp only
    cases hh : (pf (normalizeTicker tk) ts).hist with
    | error err => rfl
    | ok bars => rw [h]
  · intro e d0 h0
    exact @processEntry_ok_of_extract pf e d0 h0
  · intro e d q db t hpe
    exact processFeed_single hpe db t

/-! ### Remaining witnesses -/

/-- Witness for C1 at a concrete one-row store: re-ingesting the stored
link takes the UPDATE path, and the store's links stay distinct across a
feed run. -/
theorem claim1_upsert_unique_per_link_witness :
    upsertReport sampleDB 5 plainEntry (initForEntry plainEntry) =
      (sampleDB.map fun r =>
        if r.link == plainEntry.link then updateRow r 5 (initForEntry plainEntry) else r,
       false) ∧
    (rowLinks (processFeed quietProvider [plainEntry, plainEntry] sampleDB 3).db).Nodup :=
  ⟨((claim1_upsert_unique_per_link sampleDB 5 plainEntry
      (initForEntry plainEntry)).1 (by decide)).1,
   (claim1_upsert_unique_per_link sampleDB 5 plainEntry
      (initForEntry plainEntry)).2.2.2.2.2 quietProvider [plainEntry, plainEntry] 3
      (by decide)⟩

/-- Witness for C2 at a concrete non-matching input. -/
theorem claim2_percentage_change_cases_witness :
    extract_percentage_change "abc" = .ok (none, 0) :=
  claim2_percentage_change_cases.2.2.2.2.2 "abc" (by decide)

/-- Witness for C3 (amended) at a provider that raises. -/
theorem claim3_price_failure_leaves_fields_absent_witness :
    fetch_prices failingProvider "9435" ⟨2024, 1, 10, 0, 0, 0, none⟩ = (none, none) :=
  (claim3_price_failure_leaves_fields_absent failingProvider "9435"
    ⟨2024, 1, 10, 0, 0, 0, none⟩).1 (by decide)

/-- Witness for C5 at an entry whose published date does not parse but
whose obligation date is `2024年5月1日`. -/
theorem claim5_ymd_fallback_witness :
    extractData oblEntry = .ok oblEntryData ∧
    oblEntryData.year = some 2024 ∧ oblEntryData.month = some 5 ∧
    oblEntryData.day = some 1 :=
  ⟨by decide,
   ((claim5_ymd_fallback oblEntry oblEntryData (by decide)).2 (by decide)
      ⟨2024, 5, 1, 0, 0, 0, none⟩ (by decide)).1,
   ((claim5_ymd_fallback oblEntry oblEntryData (by decide)).2 (by decide)
      ⟨2024, 5, 1, 0, 0, 0, none⟩ (by decide)).2.1,
   ((claim5_ymd_fallback oblEntry oblEntryData (by decide)).2 (by decide)
      ⟨2024, 5, 1, 0, 0, 0, none⟩ (by decide)).2.2⟩

/-- Witness for C6: the feed `[plainEntry, faultEntry, oblEntry]` commits
`plainEntry`'s row, halts at `faultEntry`, and never reaches `oblEntry`. -/
theorem claim6_commit_per_record_witness :
    processFeed quietProvider ([plainEntry] ++ faultEntry :: [oblEntry]) [] 0 =
      ⟨(processFeed quietProvider [plainEntry] [] 0).db,
       (processFeed quietProvider [plainEntry] [] 0).inserted_count,
       (processFeed quietProvider [plainEntry] [] 0).updated_count, false⟩ :=
  (claim6_commit_per_record quietProvider [plainEntry] faultEntry [oblEntry] [] 0
    (by decide) (by decide)).1

/-- Witness for C8 at a concrete entry. -/
theorem claim8_closed_codomains_witness :
    (initForEntry plainEntry).reason_type ∈ [0, 1, 2, 3, 4, 5, 6] ∧
    ((initForEntry plainEntry).percentage_change_direction = 1 ∨
     (initForEntry plainEntry).percentage_change_direction = -1 ∨
     (initForEntry plainEntry).percentage_change_direction = 0) :=
  claim8_closed_codomains quietProvider plainEntry (initForEntry plainEntry) false
    (by decide)

/-- Witness for C10 at a concrete entry without a description. -/
theorem claim10_missing_description_witness :
    processEntry quietProvider plainEntry = .ok (initForEntry plainEntry, false) ∧
    (initForEntry plainEntry).ticker = none :=
  ⟨(claim10_missing_description quietProvider plainEntry rfl).2.2.1,
   (claim10_missing_description quietProvider plainEntry rfl).2.2.2.1⟩

end Hikari
